import Mathlib

/-!
Verification of the command-execution harness of agent.py.

Shallow embedding over `List Char`:
  * `unwrap_outer_quotes`, `normalize_command`  (agent.py 145-173)
  * `is_risky` with the `RISKY_PATTERNS` table   (agent.py 34-46, 132-136)
  * `run_commands` with its sentinel read loop   (agent.py 175-238)

Python string primitives (`str.splitlines`, `str.rstrip`, `str.replace`,
`str.strip`, `int(...)`, `re.search`) are modelled on `List Char` with the
documented CPython semantics (full whitespace / line-break sets; `\r\n` is a
single line boundary; `str.replace` is a left-to-right non-overlapping scan).
-/

set_option maxHeartbeats 4000000

/-- The apostrophe character (code point 39). -/
def singleQuote : Char := Char.ofNat 39

/-- Characters of Python's `str` whitespace class: the set stripped by
`str.strip()` / `str.rstrip()` and accepted by `str.isspace()`. -/
def pyIsSpace (c : Char) : Bool :=
  decide (c = ' ' ∨ c = '\t' ∨ c = '\n' ∨ c = '\x0d' ∨ c = '\x0b' ∨ c = '\x0c' ∨
    c = '\x1c' ∨ c = '\x1d' ∨ c = '\x1e' ∨ c = '\x1f' ∨ c = '\x85' ∨
    c = '\xa0' ∨ c = '\u1680' ∨ c = '\u2000' ∨ c = '\u2001' ∨ c = '\u2002' ∨
    c = '\u2003' ∨ c = '\u2004' ∨ c = '\u2005' ∨ c = '\u2006' ∨ c = '\u2007' ∨
    c = '\u2008' ∨ c = '\u2009' ∨ c = '\u200a' ∨ c = '\u2028' ∨ c = '\u2029' ∨
    c = '\u202f' ∨ c = '\u205f' ∨ c = '\u3000')

/-- Characters at which Python's `str.splitlines()` breaks a line. -/
def pyIsLineBreak (c : Char) : Bool :=
  decide (c = '\n' ∨ c = '\x0d' ∨ c = '\x0b' ∨ c = '\x0c' ∨ c = '\x1c' ∨
    c = '\x1d' ∨ c = '\x1e' ∨ c = '\x85' ∨ c = '\u2028' ∨ c = '\u2029')

/-- Python's `pat in s` substring test. -/
def hasSubstr (pat : List Char) : List Char → Bool
  | [] => pat.isEmpty
  | c :: cs => pat.isPrefixOf (c :: cs) || hasSubstr pat cs

/-- One pass of Python's `str.replace` specialised to a two-character pattern
`[a, b]` replaced by the single character `r` (left-to-right,
non-overlapping) — exactly the shape of the three `.replace` calls in
`normalize_command` (agent.py 163). -/
def replace2 (a b r : Char) : List Char → List Char
  | [] => []
  | [c] => [c]
  | c :: d :: rest =>
    if c = a ∧ d = b then r :: replace2 a b r rest
    else c :: replace2 a b r (d :: rest)

/-- The three escape substitutions of `normalize_command` (agent.py 163):
the backslash-n, backslash-t, backslash-r two-character sequences become the
real control characters, in that order. -/
def applyEscapes (l : List Char) : List Char :=
  replace2 '\\' 'r' '\x0d' (replace2 '\\' 't' '\t' (replace2 '\\' 'n' '\n' l))

/-- The wrap test of `_unwrap_outer_quotes` (agent.py 147):
`len(cmd) >= 2 and ((cmd[0] == cmd[-1] == '"') or (cmd[0] == cmd[-1] == "'"))`. -/
def wrappedB (cmd : List Char) : Bool :=
  decide (2 ≤ cmd.length ∧
    ((cmd.head? = some '"' ∧ cmd.getLast? = some '"') ∨
     (cmd.head? = some singleQuote ∧ cmd.getLast? = some singleQuote)))

/-- `_unwrap_outer_quotes` (agent.py 145-149): strip one outer pair of
matching quotes, `cmd[1:-1]`, when the wrap test holds. -/
def unwrap_outer_quotes (cmd : List Char) : List Char :=
  if wrappedB cmd then (cmd.drop 1).dropLast else cmd

/-- Worker for `str.splitlines()`: `acc` holds the current (reversed) line.
A `\r\n` pair is consumed as a single boundary; a terminal boundary produces
no trailing empty line. -/
def splitlinesGo (acc : List Char) : List Char → List (List Char)
  | [] => if acc.isEmpty then [] else [acc.reverse]
  | '\x0d' :: '\n' :: cs => acc.reverse :: splitlinesGo [] cs
  | c :: cs =>
    if pyIsLineBreak c then acc.reverse :: splitlinesGo [] cs
    else splitlinesGo (c :: acc) cs

/-- Python's `str.splitlines()` on a character list. -/
def pySplitlines (s : List Char) : List (List Char) := splitlinesGo [] s

/-- Python's `str.lstrip()` (default whitespace). -/
def pyLstrip (l : List Char) : List Char := l.dropWhile pyIsSpace

/-- Python's `str.rstrip()` (default whitespace), as used on each line in
`normalize_command` (agent.py 171). -/
def pyRstrip (l : List Char) : List Char := (l.reverse.dropWhile pyIsSpace).reverse

/-- Python's `str.strip()` (default whitespace). -/
def pyStrip (l : List Char) : List Char := pyRstrip (pyLstrip l)

/-- Python's `"\n".join(lines)`. -/
def joinNL : List (List Char) → List Char
  | [] => []
  | [l] => l
  | l :: l2 :: ls => l ++ '\n' :: joinNL (l2 :: ls)

/-- The heredoc step of `normalize_command` (agent.py 166-167):
`if "<<" in cmd and not cmd.endswith("\n"): cmd = cmd + "\n"`. -/
def heredocAdjust (l : List Char) : List Char :=
  if hasSubstr ('<' :: '<' :: []) l = true ∧ l.getLast? ≠ some '\n' then l ++ ['\n']
  else l

/-- The final line-trimming step of `normalize_command` (agent.py 169-172):
split into lines, `rstrip` each, rejoin with a newline separator. -/
def trimLines (l : List Char) : List Char :=
  joinNL ((pySplitlines l).map pyRstrip)

/-- `normalize_command` (agent.py 151-173), as the composition of its four
steps in source order. -/
def normalize_command (cmd : List Char) : List Char :=
  trimLines (heredocAdjust (applyEscapes (unwrap_outer_quotes cmd)))

/-- Abstract syntax of the fragment of Python regular expressions used by
`RISKY_PATTERNS` and the placeholder pattern of agent.py: literal
characters, single-character classes, starred character classes, the
word-boundary assertion, and concatenation. -/
inductive Rx
  | eps
  | ch (c : Char)
  | cls (p : Char → Bool)
  | clsStar (p : Char → Bool)
  | wordB
  | seq (r1 r2 : Rx)

/-- Python's `\w` on the ASCII range: letters, digits and underscore. -/
def isWordChar (c : Char) : Bool := c.isAlpha || c.isDigit || c = '_'

/-- Python's `\s` character class (whitespace). -/
def reSpace (c : Char) : Bool := pyIsSpace c

/-- Python's `\S` character class. -/
def reNonSpace (c : Char) : Bool := !pyIsSpace c

/-- Python's `.` (any character except a newline, no DOTALL). -/
def reDot (c : Char) : Bool := !(decide (c = '\n'))

/-- Python's `\b`: the previous and next characters disagree on `\w`
membership, with the ends of the subject counting as non-word. -/
def atBoundary (prev : Option Char) (rest : List Char) : Bool :=
  let pw := match prev with | some c => isWordChar c | none => false
  let nw := match rest with | c :: _ => isWordChar c | [] => false
  pw != nw

/-- All ways a starred class can consume a prefix of `rest`: zero characters,
or one more matching character than a shorter consumption. -/
def starStates (p : Char → Bool) (prev : Option Char) (rest : List Char) :
    List (Option Char × List Char) :=
  (prev, rest) ::
    match rest with
    | [] => []
    | c :: cs => if p c then starStates p (some c) cs else []

/-- Run a regex over a set of states `(previous character, remaining input)`,
returning every state reachable after the regex has matched. -/
def mStates : Rx → List (Option Char × List Char) → List (Option Char × List Char)
  | Rx.eps, sts => sts
  | Rx.ch c, sts =>
    sts.filterMap fun s =>
      match s.2 with
      | [] => none
      | x :: xs => if x = c then some (some x, xs) else none
  | Rx.cls p, sts =>
    sts.filterMap fun s =>
      match s.2 with
      | [] => none
      | x :: xs => if p x then some (some x, xs) else none
  | Rx.clsStar p, sts => (sts.map fun s => starStates p s.1 s.2).flatten
  | Rx.wordB, sts => sts.filter fun s => atBoundary s.1 s.2
  | Rx.seq r1 r2, sts => mStates r2 (mStates r1 sts)

/-- `re.search` from a given offset: does the regex match starting here or at
any later position? -/
def searchFrom (r : Rx) : Option Char → List Char → Bool
  | prev, [] => !(mStates r [(prev, [])]).isEmpty
  | prev, c :: cs => !(mStates r [(prev, c :: cs)]).isEmpty || searchFrom r (some c) cs

/-- Python's `re.search(r, s)` as a Boolean: a match exists at some offset. -/
def reSearch (r : Rx) (s : List Char) : Bool := searchFrom r none s

/-- Concatenation of a list of regex pieces. -/
def rxCat (l : List Rx) : Rx := l.foldr Rx.seq Rx.eps

/-- A regex matching a literal character string. -/
def rxLit (s : List Char) : Rx := rxCat (s.map Rx.ch)

/-- `\s+` -/
def rxSpacePlus : Rx := Rx.seq (Rx.cls reSpace) (Rx.clsStar reSpace)

/-- `\S+` -/
def rxNonSpacePlus : Rx := Rx.seq (Rx.cls reNonSpace) (Rx.clsStar reNonSpace)

/-- `RISKY_PATTERNS` (agent.py 34-46), one `Rx` per source pattern, in source
order. -/
def RISKY_PATTERNS : List Rx :=
  [ rxCat [Rx.wordB, rxLit (("rm").data), rxSpacePlus, rxLit (("-rf").data),
      rxSpacePlus, Rx.ch '/', Rx.wordB],
    rxCat [Rx.wordB, rxLit (("mkfs").data), Rx.ch '.'],
    rxCat [Rx.wordB, rxLit (("dd").data), rxSpacePlus, rxLit (("if=").data)],
    rxCat [Rx.wordB, rxLit ((":>").data), Rx.clsStar reSpace, Rx.ch '/'],
    rxCat [Rx.wordB, rxLit (("chmod").data), rxSpacePlus, rxLit (("777").data),
      rxSpacePlus, Rx.ch '/', Rx.clsStar reNonSpace],
    rxCat [Rx.wordB, rxLit (("chown").data), rxSpacePlus, rxLit (("-R").data),
      rxSpacePlus, rxNonSpacePlus, rxSpacePlus, Rx.ch '/', Rx.clsStar reNonSpace],
    rxCat [Rx.wordB, rxLit (("parted").data), Rx.wordB],
    rxCat [Rx.wordB, rxLit (("fdisk").data), Rx.wordB],
    rxCat [Rx.wordB, rxLit (("sudo").data), rxSpacePlus, rxLit (("passwd").data), Rx.wordB],
    rxCat [Rx.wordB, rxLit (("iptables").data), Rx.wordB],
    rxCat [Rx.wordB, rxLit (("ufw").data), Rx.wordB, Rx.clsStar reDot, Rx.wordB,
      rxLit (("reset").data), Rx.wordB] ]

/-- `is_risky` (agent.py 132-136): some signature of `RISKY_PATTERNS` matches
somewhere in the command text. -/
def is_risky (cmd : List Char) : Bool :=
  RISKY_PATTERNS.any fun r => reSearch r cmd

/-- The `placeholder_re` pattern of `run_commands` (agent.py 178):
a bracketed identifier made of word characters and dashes. -/
def placeholderRx : Rx :=
  rxCat [Rx.ch '<', Rx.cls (fun c => isWordChar c || c = '-'),
    Rx.clsStar (fun c => isWordChar c || c = '-'), Rx.ch '>']

/-- `placeholder_re.search(cmd)` as a Boolean. -/
def placeholderHit (cmd : List Char) : Bool := reSearch placeholderRx cmd

/-- Decimal digit characters to a natural number (most significant first). -/
def digitsToNat (ds : List Char) : Nat :=
  ds.foldl (fun a c => 10 * a + (c.toNat - ('0').toNat)) 0

/-- The sign-and-digits grammar of Python's `int(s)` after stripping. -/
def pyIntCore : List Char → Option Int
  | [] => none
  | c :: rest =>
    if c = '-' then
      if !rest.isEmpty && rest.all Char.isDigit then some (-(digitsToNat rest : Int))
      else none
    else if c = '+' then
      if !rest.isEmpty && rest.all Char.isDigit then some ((digitsToNat rest : Int))
      else none
    else if (c :: rest).all Char.isDigit then some ((digitsToNat (c :: rest) : Int))
    else none

/-- Python's `int(s)` on a string: surrounding whitespace is ignored, an
optional single sign is allowed, and the body must be all digits; any other
input raises `ValueError`, modelled as `none`. -/
def pyInt (s : List Char) : Option Int := pyIntCore (pyStrip s)

/-- Python's decimal rendering of an `int`, as produced by an f-string. -/
def pyIntRepr (n : Int) : List Char :=
  if n < 0 then '-' :: (Nat.repr n.natAbs).data else (Nat.repr n.toNat).data

/-- Python's `s.split(sep, 1)`: the text before the first `sep`, and `some`
of the text after it when `sep` occurs (`none` models the missing `[1]`
element, an `IndexError` at the use site). -/
def splitOnce (sep : Char) : List Char → List Char × Option (List Char)
  | [] => ([], none)
  | c :: cs =>
    if c = sep then ([], some cs)
    else
      let r := splitOnce sep cs
      (c :: r.1, r.2)

/-- The sentinel marker `"__CMD_EXIT:"` used by `line.startswith` in the read
loop of `run_commands` (agent.py 218). -/
def SENTINEL_PREFIX : List Char := ("__CMD_EXIT:").data

/-- The probe written after each command (agent.py 208):
`"echo __CMD_EXIT:$?\n"`. -/
def PROBE_LINE : List Char := ("echo __CMD_EXIT:$?").data ++ ['\n']

/-- `int(line.strip().split(":", 1)[1])` (agent.py 219): `none` models the
exceptions (`IndexError` when no colon, `ValueError` from `int`). -/
def parseExit (line : List Char) : Option Int :=
  match (splitOnce ':' (pyStrip line)).2 with
  | some post => pyInt post
  | none => none

/-- The observable state of the single shell process: every line written to
its stdin so far, the lines still unread on its merged stdout/stderr stream
(an exhausted list models end-of-stream: `readline` returns `""`), and
whether a read has already returned end-of-stream — the process is then
known to have exited, and a later write to its stdin raises
`BrokenPipeError` (the `shell.stdin.write` at agent.py 208 is unguarded). -/
structure ShellModel where
  written : List (List Char)
  outLines : List (List Char)
  eofSeen : Bool
deriving DecidableEq

/-- How the read loop of `run_commands` ended: a sentinel-prefixed line
(whose exit-status parse may itself fail), or end-of-stream. -/
inductive LoopEnd
  | sentinelHit (code : Option Int)
  | eofHit
deriving DecidableEq

/-- Result of the read loop: lines collected (and mirrored) before the end,
how it ended, and the lines left unread on the stream. -/
structure ReadOut where
  collected : List (List Char)
  ending : LoopEnd
  rest : List (List Char)
deriving DecidableEq

/-- The read loop of `run_commands` (agent.py 213-224): read lines until an
empty read (end-of-stream) or a line starting with the sentinel; earlier
lines are collected (and printed); the sentinel line is consumed and parsed,
not collected. -/
def readLoop : List (List Char) → ReadOut
  | [] => ⟨[], LoopEnd.eofHit, []⟩
  | l :: ls =>
    if l.isEmpty then ⟨[], LoopEnd.eofHit, ls⟩
    else if SENTINEL_PREFIX.isPrefixOf l then ⟨[], LoopEnd.sentinelHit (parseExit l), ls⟩
    else
      let r := readLoop ls
      ⟨l :: r.collected, r.ending, r.rest⟩

/-- The fate of one submitted command (the spec's `ExecutionResult` outcome,
with the recorded exit status and whether the read loop ended at
end-of-stream instead of a sentinel). -/
inductive Outcome
  | completed (code : Int) (eofHit : Bool)
  | skippedPlaceholder
  | skippedRisk
deriving DecidableEq

/-- One entry of the transcript: the text appended to `outputs` and the
outcome of the command (agent.py 199-230). -/
structure CmdRecord where
  entry : List Char
  outcome : Outcome
deriving DecidableEq

/-- Result of processing one command: updated shell state, remaining
interactive confirmation answers, and the record — `none` when the loop body
raised (the `int(...)` conversion failed, or the write to an exited shell
raised `BrokenPipeError`). -/
structure StepResult where
  shell : ShellModel
  answers : List Bool
  record : Option CmdRecord
deriving DecidableEq

/-- The submit-and-read phase for one command (agent.py 206-230): if the
session's end-of-stream has already been observed the shell has exited and
the unguarded `shell.stdin.write` (agent.py 208) raises `BrokenPipeError`
(`none`, nothing written, state unchanged); otherwise write the command line
and the probe, run the read loop, and build the transcript entry with its
error annotation for a non-zero status (end-of-stream leaves the default
status 0 and marks the session's end-of-stream as observed). -/
def execCmd (sh : ShellModel) (cmd : List Char) : ShellModel × Option CmdRecord :=
  if sh.eofSeen then (sh, none)
  else
    let sh1 : ShellModel := ⟨sh.written ++ [cmd ++ ['\n'], PROBE_LINE], sh.outLines, false⟩
    let r := readLoop sh1.outLines
    match r.ending with
    | LoopEnd.eofHit =>
      (⟨sh1.written, r.rest, true⟩,
       some ⟨("$ ").data ++ cmd ++ '\n' :: r.collected.flatten, Outcome.completed 0 true⟩)
    | LoopEnd.sentinelHit none => (⟨sh1.written, r.rest, false⟩, none)
    | LoopEnd.sentinelHit (some n) =>
      let base := ("$ ").data ++ cmd ++ '\n' :: r.collected.flatten
      let entry :=
        if n ≠ 0 then
          base ++ '\n' :: (("[Error] Command failed with code ").data ++ pyIntRepr n) ++ ['\n']
        else base
      (⟨sh1.written, r.rest, false⟩, some ⟨entry, Outcome.completed n false⟩)

/-- The body of the `for raw in commands` loop of `run_commands`
(agent.py 196-230) for one command: normalize, skip unresolved placeholders,
consult the confirmation gate when `SAFE_MODE` and the command is privileged
or risky (the `answers` queue models the operator's interactive replies;
an exhausted queue declines, as `EOFError` does), otherwise submit. -/
def processCmd (safeMode : Bool) (answers : List Bool) (sh : ShellModel)
    (raw : List Char) : StepResult :=
  let cmd := normalize_command raw
  if placeholderHit cmd && !hasSubstr ('<' :: '<' :: []) cmd then
    ⟨sh, answers,
     some ⟨("$ ").data ++ cmd ++ '\n' :: ("[Skipped placeholder]").data,
       Outcome.skippedPlaceholder⟩⟩
  else if safeMode && ((("sudo").data).isPrefixOf cmd || is_risky cmd) then
    if answers.headD false then
      let e := execCmd sh cmd
      ⟨e.1, answers.tail, e.2⟩
    else
      ⟨sh, answers.tail,
       some ⟨("$ ").data ++ cmd ++ '\n' :: ("[Skipped]").data, Outcome.skippedRisk⟩⟩
  else
    let e := execCmd sh cmd
    ⟨e.1, answers, e.2⟩

/-- Accumulated result of the command loop: final shell state, the records
in submission order, and whether the loop was aborted by an exception. -/
structure BodyResult where
  shell : ShellModel
  records : List CmdRecord
  raised : Bool
deriving DecidableEq

/-- The command loop of `run_commands` (agent.py 196-230): process commands
in order; an exception abandons the loop (the records gathered so far are
lost with the `outputs` local). -/
def runBody (safeMode : Bool) : List Bool → ShellModel → List (List Char) → BodyResult
  | _, sh, [] => ⟨sh, [], false⟩
  | ans, sh, raw :: rest =>
    let st := processCmd safeMode ans sh raw
    match st.record with
    | none => ⟨st.shell, [], true⟩
    | some rec =>
      let r := runBody safeMode st.answers st.shell rest
      ⟨r.shell, rec :: r.records, r.raised⟩

/-- The teardown actions of the `finally` block of `run_commands`
(agent.py 231-237). `kill` (forced termination after an unheeded graceful
request) is representable so its absence can be stated; the source never
performs it. -/
inductive TearStep
  | closeStdin
  | terminate
  | waitProc
  | kill
deriving DecidableEq

/-- Overall result of `run_commands`: the returned transcript
(`"\n".join(outputs)`, or `none` when the body raised and the return was
never reached), the final shell state, and the teardown actions performed
by the `finally` block on the way out. -/
structure RunResult where
  transcript : Option (List Char)
  shell : ShellModel
  teardown : List TearStep
deriving DecidableEq

/-- `run_commands` (agent.py 175-238): run the loop, then — on every exit
route, normal or raising — close stdin, call `terminate()`, and `wait()`. -/
def run_commands (safeMode : Bool) (answers : List Bool) (sh : ShellModel)
    (cmds : List (List Char)) : RunResult :=
  let b := runBody safeMode answers sh cmds
  ⟨if b.raised then none else some (joinNL (b.records.map CmdRecord.entry)),
   b.shell,
   [TearStep.closeStdin, TearStep.terminate, TearStep.waitProc]⟩

/-! ### Substring lemmas -/

theorem isPrefixOf_append_ext (p a b : List Char) (h : p.isPrefixOf a = true) :
    p.isPrefixOf (a ++ b) = true := by
  induction p generalizing a with
  | nil => simp [List.isPrefixOf]
  | cons x xs ih =>
    cases a with
    | nil => simp [List.isPrefixOf] at h
    | cons y ys =>
      simp only [List.isPrefixOf, Bool.and_eq_true] at h
      simp only [List.cons_append, List.isPrefixOf, Bool.and_eq_true]
      exact ⟨h.1, ih ys h.2⟩

theorem isPrefixOf_self_append (p b : List Char) : p.isPrefixOf (p ++ b) = true := by
  induction p with
  | nil => simp [List.isPrefixOf]
  | cons x xs ih => simp [List.isPrefixOf, ih]

theorem hasSubstr_append_left (pat a b : List Char) (h : hasSubstr pat a = true) :
    hasSubstr pat (a ++ b) = true := by
  induction a with
  | nil =>
    simp only [hasSubstr, List.isEmpty_iff] at h
    subst h
    cases b <;> simp [hasSubstr, List.isPrefixOf]
  | cons x xs ih =>
    simp only [hasSubstr, Bool.or_eq_true] at h
    rcases h with h | h
    · simp only [List.cons_append, hasSubstr, Bool.or_eq_true]
      exact Or.inl (isPrefixOf_append_ext _ _ _ h)
    · simp only [List.cons_append, hasSubstr, Bool.or_eq_true]
      exact Or.inr (ih h)

theorem hasSubstr_append_right (pat a b : List Char) (h : hasSubstr pat b = true) :
    hasSubstr pat (a ++ b) = true := by
  induction a with
  | nil => simpa using h
  | cons x xs ih => simp only [List.cons_append, hasSubstr, Bool.or_eq_true]; exact Or.inr ih

theorem isPrefixOf_append_cons (pat a : List Char) (c : Char) (b : List Char)
    (h : pat.isPrefixOf (a ++ c :: b) = true) (hc : ∀ x ∈ pat, x ≠ c) :
    pat.isPrefixOf a = true := by
  induction pat generalizing a with
  | nil => simp [List.isPrefixOf]
  | cons p ps ih =>
    cases a with
    | nil =>
      simp only [List.nil_append, List.isPrefixOf, Bool.and_eq_true, beq_iff_eq] at h
      exact absurd h.1 (hc p (by simp))
    | cons y ys =>
      simp only [List.cons_append, List.isPrefixOf, Bool.and_eq_true] at h
      simp only [List.isPrefixOf, Bool.and_eq_true]
      exact ⟨h.1, ih ys h.2 (fun x hx => hc x (by simp [hx]))⟩

theorem hasSubstr_append_cons (pat a : List Char) (c : Char) (b : List Char)
    (h : hasSubstr pat (a ++ c :: b) = true) (hc : ∀ x ∈ pat, x ≠ c) :
    hasSubstr pat a = true ∨ hasSubstr pat b = true := by
  induction a with
  | nil =>
    simp only [List.nil_append, hasSubstr, Bool.or_eq_true] at h
    rcases h with h | h
    · cases pat with
      | nil => left; simp [hasSubstr]
      | cons p ps =>
        simp only [List.isPrefixOf, Bool.and_eq_true, beq_iff_eq] at h
        exact absurd h.1 (hc p (by simp))
    · exact Or.inr h
  | cons y ys ih =>
    simp only [List.cons_append, hasSubstr, Bool.or_eq_true] at h
    rcases h with h | h
    · left
      cases pat with
      | nil => simp [hasSubstr]
      | cons p ps =>
        simp only [List.isPrefixOf, Bool.and_eq_true] at h
        have := isPrefixOf_append_cons ps ys c b h.2 (fun x hx => hc x (by simp [hx]))
        simp [hasSubstr, List.isPrefixOf, h.1, this]
    · rcases ih h with h' | h'
      · left; simp [hasSubstr, h']
      · exact Or.inr h'

/-! ### Strip lemmas -/

theorem pyLstrip_of_head (c : Char) (l : List Char) (h : pyIsSpace c = false) :
    pyLstrip (c :: l) = c :: l := by
  simp [pyLstrip, List.dropWhile, h]

theorem pyRstrip_append_space (l : List Char) (c : Char) (h : pyIsSpace c = true) :
    pyRstrip (l ++ [c]) = pyRstrip l := by
  simp [pyRstrip, List.dropWhile, h]

theorem pyRstrip_of_getLast (l : List Char) (c : Char) (hl : l.getLast? = some c)
    (h : pyIsSpace c = false) : pyRstrip l = l := by
  have hrev : l.reverse.head? = some c := by rw [List.head?_reverse]; exact hl
  cases hr : l.reverse with
  | nil => simp [hr] at hrev
  | cons x xs =>
    rw [hr] at hrev
    simp only [List.head?_cons, Option.some.injEq] at hrev
    subst hrev
    have : pyRstrip l = ((x :: xs).dropWhile pyIsSpace).reverse := by rw [pyRstrip, hr]
    rw [this, List.dropWhile_cons_of_neg (by simp [h]), ← hr, List.reverse_reverse]

theorem dropWhile_head_not (p : Char → Bool) (l : List Char) (c : Char)
    (h : (l.dropWhile p).head? = some c) : p c = false := by
  induction l with
  | nil => simp [List.dropWhile] at h
  | cons x xs ih =>
    by_cases hx : p x
    · rw [List.dropWhile_cons_of_pos hx] at h; exact ih h
    · rw [List.dropWhile_cons_of_neg hx] at h
      simp only [List.head?_cons, Option.some.injEq] at h
      subst h
      exact Bool.eq_false_iff.mpr hx

theorem pyRstrip_getLast_not_space (l : List Char) (c : Char)
    (h : (pyRstrip l).getLast? = some c) : pyIsSpace c = false := by
  rw [← List.head?_reverse] at h
  rw [pyRstrip, List.reverse_reverse] at h
  exact dropWhile_head_not _ _ _ h

theorem pyRstrip_idem (l : List Char) : pyRstrip (pyRstrip l) = pyRstrip l := by
  cases hg : (pyRstrip l).getLast? with
  | none =>
    have : pyRstrip l = [] := by
      cases hr : pyRstrip l with
      | nil => rfl
      | cons x xs => rw [hr] at hg; simp at hg
    rw [this]
    rfl
  | some c =>
    exact pyRstrip_of_getLast _ _ hg (pyRstrip_getLast_not_space _ _ hg)

theorem pyRstrip_split (l : List Char) :
    ∃ w, l = pyRstrip l ++ w ∧ ∀ c ∈ w, pyIsSpace c = true := by
  refine ⟨(l.reverse.takeWhile pyIsSpace).reverse, ?_, ?_⟩
  · rw [pyRstrip]
    rw [← List.reverse_append, List.takeWhile_append_dropWhile, List.reverse_reverse]
  · intro c hc
    rw [List.mem_reverse] at hc
    exact List.mem_takeWhile_imp hc

theorem pyRstrip_not_nl (l : List Char) : (pyRstrip l).getLast? ≠ some '\n' := by
  intro h
  have := pyRstrip_getLast_not_space _ _ h
  simp [pyIsSpace] at this

theorem mem_pyRstrip (l : List Char) (c : Char) (h : c ∈ pyRstrip l) : c ∈ l := by
  obtain ⟨w, hw, -⟩ := pyRstrip_split l
  rw [hw]
  exact List.mem_append_left _ h

/-! ### splitlines lemmas -/

theorem splitlinesGo_cons_nonbreak (acc : List Char) (c : Char) (cs : List Char)
    (h : pyIsLineBreak c = false) :
    splitlinesGo acc (c :: cs) = splitlinesGo (c :: acc) cs := by
  have hc : ¬(c = '\x0d') := by
    intro e; subst e; simp [pyIsLineBreak] at h
  simp [splitlinesGo, hc, h]

theorem splitlinesGo_cons_nl (acc cs : List Char) :
    splitlinesGo acc ('\n' :: cs) = acc.reverse :: splitlinesGo [] cs := by
  rfl

theorem splitlinesGo_crlf (acc cs : List Char) :
    splitlinesGo acc ('\x0d' :: '\n' :: cs) = acc.reverse :: splitlinesGo [] cs := by
  rfl

theorem splitlinesGo_cons_break (acc : List Char) (c : Char) (cs : List Char)
    (hbrk : pyIsLineBreak c = true)
    (hne : ∀ cs2, c = '\x0d' → cs = '\n' :: cs2 → False) :
    splitlinesGo acc (c :: cs) = acc.reverse :: splitlinesGo [] cs := by
  by_cases hcd : c = '\x0d'
  · subst hcd
    cases cs with
    | nil =>
      have hlb : pyIsLineBreak '\x0d' = true := by decide
      simp [splitlinesGo, hlb]
    | cons d cs' =>
      have hd : ¬(d = '\n') := fun e => hne cs' rfl (by rw [e])
      have hlb : pyIsLineBreak '\x0d' = true := by decide
      simp [splitlinesGo, hd, hlb]
  · simp [splitlinesGo, hcd, hbrk]

theorem splitlinesGo_append_nl (l : List Char) (hl : ∀ x ∈ l, pyIsLineBreak x = false)
    (acc r : List Char) :
    splitlinesGo acc (l ++ '\n' :: r) = (acc.reverse ++ l) :: splitlinesGo [] r := by
  induction l generalizing acc with
  | nil => simp [splitlinesGo_cons_nl]
  | cons c l' ih =>
    rw [List.cons_append, splitlinesGo_cons_nonbreak _ _ _ (hl c (by simp))]
    rw [ih (fun x hx => hl x (by simp [hx]))]
    simp

theorem splitlinesGo_no_break (s : List Char) (hs : ∀ x ∈ s, pyIsLineBreak x = false)
    (acc : List Char) :
    splitlinesGo acc s = if acc.isEmpty && s.isEmpty then [] else [acc.reverse ++ s] := by
  induction s generalizing acc with
  | nil => simp [splitlinesGo]
  | cons c s' ih =>
    rw [splitlinesGo_cons_nonbreak _ _ _ (hs c (by simp))]
    rw [ih (fun x hx => hs x (by simp [hx]))]
    simp

theorem pySplitlines_append_nl (l : List Char) (hl : ∀ x ∈ l, pyIsLineBreak x = false)
    (r : List Char) :
    pySplitlines (l ++ '\n' :: r) = l :: splitlinesGo [] r := by
  rw [pySplitlines, splitlinesGo_append_nl l hl]
  simp

theorem pySplitlines_no_break (s : List Char) (hs : ∀ x ∈ s, pyIsLineBreak x = false) :
    pySplitlines s = if s.isEmpty then [] else [s] := by
  rw [pySplitlines, splitlinesGo_no_break s hs]
  simp

theorem splitlinesGo_lines_breakFree (acc s : List Char) :
    (∀ c ∈ acc, pyIsLineBreak c = false) →
    ∀ l ∈ splitlinesGo acc s, ∀ c ∈ l, pyIsLineBreak c = false := by
  induction acc, s using splitlinesGo.induct with
  | case1 acc hacc =>
    intro hok l hl
    simp [splitlinesGo, hacc] at hl
  | case2 acc hacc =>
    intro hok l hl
    simp only [splitlinesGo] at hl
    rw [if_neg (by simpa using hacc)] at hl
    simp only [List.mem_singleton] at hl
    subst hl
    intro c hc
    exact hok c (by simpa using hc)
  | case3 acc cs ih =>
    intro hok l hl
    rw [splitlinesGo_crlf] at hl
    simp only [List.mem_cons] at hl
    rcases hl with hl | hl
    · subst hl; intro c hc; exact hok c (by simpa using hc)
    · exact ih (by simp) l hl
  | case4 acc c cs hne hbrk ih =>
    intro hok l hl
    rw [splitlinesGo_cons_break _ _ _ hbrk hne] at hl
    simp only [List.mem_cons] at hl
    rcases hl with hl | hl
    · subst hl; intro x hx; exact hok x (by simpa using hx)
    · exact ih (by simp) l hl
  | case5 acc c cs hne hbrk ih =>
    intro hok l hl
    rw [splitlinesGo_cons_nonbreak _ _ _ (Bool.eq_false_iff.mpr hbrk)] at hl
    refine ih ?_ l hl
    intro x hx
    simp only [List.mem_cons] at hx
    rcases hx with rfl | hx
    · exact Bool.eq_false_iff.mpr hbrk
    · exact hok x hx

theorem splitlinesGo_occurs (acc s : List Char) :
    ∀ l ∈ splitlinesGo acc s, ∃ u v, acc.reverse ++ s = u ++ l ++ v := by
  induction acc, s using splitlinesGo.induct with
  | case1 acc hacc =>
    intro l hl
    simp [splitlinesGo, hacc] at hl
  | case2 acc hacc =>
    intro l hl
    simp only [splitlinesGo] at hl
    rw [if_neg (by simpa using hacc)] at hl
    simp only [List.mem_singleton] at hl
    subst hl
    exact ⟨[], [], by simp⟩
  | case3 acc cs ih =>
    intro l hl
    rw [splitlinesGo_crlf] at hl
    simp only [List.mem_cons] at hl
    rcases hl with hl | hl
    · subst hl; exact ⟨[], '\x0d' :: '\n' :: cs, by simp⟩
    · obtain ⟨u, v, huv⟩ := ih l hl
      simp only [List.reverse_nil, List.nil_append] at huv
      exact ⟨acc.reverse ++ '\x0d' :: '\n' :: u, v, by simp [huv, List.append_assoc]⟩
  | case4 acc c cs hne hbrk ih =>
    intro l hl
    rw [splitlinesGo_cons_break _ _ _ hbrk hne] at hl
    simp only [List.mem_cons] at hl
    rcases hl with hl | hl
    · subst hl; exact ⟨[], c :: cs, by simp⟩
    · obtain ⟨u, v, huv⟩ := ih l hl
      simp only [List.reverse_nil, List.nil_append] at huv
      exact ⟨acc.reverse ++ c :: u, v, by simp [huv, List.append_assoc]⟩
  | case5 acc c cs hne hbrk ih =>
    intro l hl
    rw [splitlinesGo_cons_nonbreak _ _ _ (Bool.eq_false_iff.mpr hbrk)] at hl
    obtain ⟨u, v, huv⟩ := ih l hl
    refine ⟨u, v, ?_⟩
    simpa using huv

theorem hasSubstr_of_mem_pySplitlines (pat s line : List Char)
    (hline : line ∈ pySplitlines s) (h : hasSubstr pat line = true) :
    hasSubstr pat s = true := by
  obtain ⟨u, v, huv⟩ := splitlinesGo_occurs [] s line hline
  simp only [List.reverse_nil, List.nil_append] at huv
  rw [huv]
  exact hasSubstr_append_left _ _ _ (hasSubstr_append_right _ _ _ h)

/-! ### join lemmas -/

theorem joinNL_cons_cons (l l2 : List Char) (ls : List (List Char)) :
    joinNL (l :: l2 :: ls) = l ++ '\n' :: joinNL (l2 :: ls) := by
  rfl

theorem joinNL_cons_eq_nil (l : List Char) (ls : List (List Char)) :
    joinNL (l :: ls) = [] ↔ l = [] ∧ ls = [] := by
  cases ls with
  | nil => simp [joinNL]
  | cons l2 ls' => simp [joinNL_cons_cons]

theorem joinNL_getLast_nl (ls : List (List Char))
    (h : ∀ x ∈ ls, x.getLast? ≠ some '\n') :
    (joinNL ls).getLast? = some '\n' ↔ 2 ≤ ls.length ∧ ls.getLast? = some [] := by
  induction ls with
  | nil => simp [joinNL]
  | cons l ls' ih =>
    cases ls' with
    | nil =>
      simp only [show joinNL [l] = l from rfl]
      constructor
      · intro hl; exact absurd hl (h l (by simp))
      · rintro ⟨h2, -⟩; simp at h2
    | cons l2 ls'' =>
      rw [joinNL_cons_cons]
      rw [List.getLast?_append_of_ne_nil _ (by simp)]
      by_cases hJ : joinNL (l2 :: ls'') = []
      · rw [hJ]
        rw [joinNL_cons_eq_nil] at hJ
        obtain ⟨rfl, rfl⟩ := hJ
        simp
      · have hg : ('\n' :: joinNL (l2 :: ls'')).getLast? = (joinNL (l2 :: ls'')).getLast? := by
          cases hJ' : joinNL (l2 :: ls'') with
          | nil => exact absurd hJ' hJ
          | cons x xs => rfl
        rw [hg, ih (fun x hx => h x (by simp [hx]))]
        simp only [List.length_cons, List.getLast?_cons_cons]
        constructor
        · intro hx
          exact ⟨by omega, hx.2⟩
        · intro hx
          refine ⟨?_, hx.2⟩
          cases ls'' with
          | nil =>
            have : l2 = [] := by simpa using hx.2
            subst this
            simp [joinNL] at hJ
          | cons a as => simp only [List.length_cons]; omega

theorem hasSubstr_joinNL (pat : List Char) (hp : pat ≠ [])
    (hnl : ∀ x ∈ pat, x ≠ '\n') (ls : List (List Char))
    (h : ∀ l ∈ ls, hasSubstr pat l = false) :
    hasSubstr pat (joinNL ls) = false := by
  induction ls with
  | nil =>
    simp only [joinNL, hasSubstr, List.isEmpty_iff]
    simpa using hp
  | cons l ls' ih =>
    cases ls' with
    | nil => exact h l (by simp)
    | cons l2 ls'' =>
      rw [joinNL_cons_cons]
      by_contra hcon
      rw [Bool.not_eq_false] at hcon
      rcases hasSubstr_append_cons pat l '\n' (joinNL (l2 :: ls'')) hcon hnl with hx | hx
      · rw [h l (by simp)] at hx; cases hx
      · rw [ih (fun x hxx => h x (by simp [hxx]))] at hx; cases hx

/-! ### splitlines/join round trip -/

theorem pySplitlines_joinNL (ls : List (List Char)) (hne : ls ≠ [])
    (hbf : ∀ l ∈ ls, ∀ c ∈ l, pyIsLineBreak c = false)
    (hlast : ls.getLast? ≠ some []) :
    pySplitlines (joinNL ls) = ls ∧ pySplitlines (joinNL ls ++ ['\n']) = ls := by
  induction ls with
  | nil => exact absurd rfl hne
  | cons l ls' ih =>
    cases ls' with
    | nil =>
      have hl : l ≠ [] := by
        intro e; subst e; exact hlast (by simp)
      constructor
      · show pySplitlines l = [l]
        rw [pySplitlines_no_break l (hbf l (by simp))]
        simp [hl]
      · show pySplitlines (l ++ ['\n']) = [l]
        have : l ++ ['\n'] = l ++ '\n' :: [] := rfl
        rw [this, pySplitlines_append_nl l (hbf l (by simp))]
        rfl
    | cons l2 ls'' =>
      have hih := ih (by simp)
        (fun x hx => hbf x (by simp [hx]))
        (by simpa using hlast)
      constructor
      · rw [joinNL_cons_cons, pySplitlines_append_nl l (hbf l (by simp))]
        have : splitlinesGo [] (joinNL (l2 :: ls'')) = pySplitlines (joinNL (l2 :: ls'')) := rfl
        rw [this, hih.1]
      · rw [joinNL_cons_cons, List.append_assoc, List.cons_append,
          pySplitlines_append_nl l (hbf l (by simp))]
        have : splitlinesGo [] (joinNL (l2 :: ls'') ++ ['\n']) =
            pySplitlines (joinNL (l2 :: ls'') ++ ['\n']) := rfl
        rw [this, hih.2]

/-! ### replace lemmas -/

theorem hasSubstr_cons_false (pat : List Char) (c : Char) (cs : List Char)
    (h : hasSubstr pat (c :: cs) = false) :
    pat.isPrefixOf (c :: cs) = false ∧ hasSubstr pat cs = false := by
  rw [show hasSubstr pat (c :: cs) = (pat.isPrefixOf (c :: cs) || hasSubstr pat cs) from rfl]
    at h
  exact Bool.or_eq_false_iff.mp h

theorem replace2_of_not_hasSubstr (a b r : Char) (l : List Char)
    (h : hasSubstr (a :: b :: []) l = false) : replace2 a b r l = l := by
  induction l using replace2.induct a b r with
  | case1 => rfl
  | case2 c => rfl
  | case3 c d rest hcd ih =>
    exfalso
    obtain ⟨h1, -⟩ := hasSubstr_cons_false _ _ _ h
    rw [hcd.1, hcd.2] at h1
    simp [List.isPrefixOf] at h1
  | case4 c d rest hcd ih =>
    obtain ⟨-, h2⟩ := hasSubstr_cons_false _ _ _ h
    rw [show replace2 a b r (c :: d :: rest) =
      if c = a ∧ d = b then r :: replace2 a b r rest
      else c :: replace2 a b r (d :: rest) from rfl]
    rw [if_neg hcd, ih h2]

/-! ### normalize_command assembly lemmas -/

theorem unwrap_of_not_wrapped (s : List Char) (h : wrappedB s = false) :
    unwrap_outer_quotes s = s := by
  simp [unwrap_outer_quotes, h]

theorem applyEscapes_of_clean (l : List Char)
    (hn : hasSubstr ('\\' :: 'n' :: []) l = false)
    (ht : hasSubstr ('\\' :: 't' :: []) l = false)
    (hr : hasSubstr ('\\' :: 'r' :: []) l = false) :
    applyEscapes l = l := by
  rw [applyEscapes, replace2_of_not_hasSubstr _ _ _ _ hn,
    replace2_of_not_hasSubstr _ _ _ _ ht, replace2_of_not_hasSubstr _ _ _ _ hr]

theorem hasSubstr_heredocAdjust (pat l : List Char) (hnl : ∀ x ∈ pat, x ≠ '\n')
    (h : hasSubstr pat l = false) : hasSubstr pat (heredocAdjust l) = false := by
  rw [heredocAdjust]
  split
  · by_contra hcon
    rw [Bool.not_eq_false] at hcon
    have : l ++ ['\n'] = l ++ '\n' :: [] := rfl
    rw [this] at hcon
    rcases hasSubstr_append_cons pat l '\n' [] hcon hnl with hx | hx
    · rw [h] at hx; cases hx
    · cases pat with
      | nil =>
        have htrue : hasSubstr ([] : List Char) l = true := by
          cases l <;> simp [hasSubstr, List.isPrefixOf]
        rw [htrue] at h
        cases h
      | cons p ps => simp [hasSubstr] at hx
  · exact h

theorem hasSubstr_trimLines (pat : List Char) (hp : pat ≠ [])
    (hnl : ∀ x ∈ pat, x ≠ '\n') (u : List Char) (h : hasSubstr pat u = false) :
    hasSubstr pat (trimLines u) = false := by
  rw [trimLines]
  refine hasSubstr_joinNL pat hp hnl _ ?_
  intro x hx
  obtain ⟨line, hline, rfl⟩ := List.mem_map.mp hx
  by_contra hcon
  rw [Bool.not_eq_false] at hcon
  obtain ⟨w, hw, -⟩ := pyRstrip_split line
  have : hasSubstr pat line = true := by
    rw [hw]; exact hasSubstr_append_left _ _ _ hcon
  rw [hasSubstr_of_mem_pySplitlines pat u line hline this] at h
  cases h

theorem map_pyRstrip_self (xs : List (List Char)) (h : ∀ x ∈ xs, pyRstrip x = x) :
    xs.map pyRstrip = xs := by
  induction xs with
  | nil => rfl
  | cons x xs' ih =>
    simp only [List.map_cons, h x (by simp), ih (fun y hy => h y (by simp [hy]))]

theorem trimLines_joinNL (ls : List (List Char))
    (hr : ∀ x ∈ ls, pyRstrip x = x)
    (hbf : ∀ x ∈ ls, ∀ c ∈ x, pyIsLineBreak c = false)
    (hlast : ls.getLast? ≠ some []) :
    trimLines (joinNL ls) = joinNL ls ∧
      (ls ≠ [] → trimLines (joinNL ls ++ ['\n']) = joinNL ls) := by
  cases hls : ls with
  | nil => exact ⟨rfl, fun h => absurd rfl h⟩
  | cons l ls' =>
    subst hls
    have hrt := pySplitlines_joinNL (l :: ls') (by simp) hbf hlast
    constructor
    · rw [trimLines, hrt.1, map_pyRstrip_self _ hr]
    · intro _
      rw [trimLines, hrt.2, map_pyRstrip_self _ hr]

theorem normalize_nil : normalize_command [] = [] := by decide

/-! ### digit and parse lemmas -/

theorem digit_not_space (c : Char) (h : c.isDigit = true) : pyIsSpace c = false := by
  cases hp : pyIsSpace c with
  | false => rfl
  | true =>
    exfalso
    unfold pyIsSpace at hp
    have hd := of_decide_eq_true hp
    rcases hd with rfl | rfl | rfl | rfl | rfl | rfl | rfl | rfl | rfl | rfl | rfl | rfl | rfl |
      rfl | rfl | rfl | rfl | rfl | rfl | rfl | rfl | rfl | rfl | rfl | rfl | rfl | rfl | rfl |
      rfl <;> exact absurd h (by decide)

theorem digit_ne_dash (c : Char) (h : c.isDigit = true) : ¬(c = '-') := by
  intro e; subst e; exact absurd h (by decide)

theorem digit_ne_plus (c : Char) (h : c.isDigit = true) : ¬(c = '+') := by
  intro e; subst e; exact absurd h (by decide)

theorem pyStrip_digits (ds : List Char) (hne : ds ≠ []) (hd : ds.all Char.isDigit = true) :
    pyStrip ds = ds := by
  cases ds with
  | nil => exact absurd rfl hne
  | cons c rest =>
    have hc : c.isDigit = true := by
      rw [List.all_eq_true] at hd; exact hd c (by simp)
    rw [pyStrip, pyLstrip_of_head c rest (digit_not_space c hc)]
    obtain ⟨x, hx⟩ : ∃ x, (c :: rest).getLast? = some x := by
      cases hg : (c :: rest).getLast? with
      | none => simp at hg
      | some x => exact ⟨x, rfl⟩
    have hxd : x.isDigit = true := by
      rw [List.all_eq_true] at hd
      exact hd x (List.mem_of_mem_getLast? hx)
    exact pyRstrip_of_getLast _ _ hx (digit_not_space x hxd)

theorem pyInt_digits (ds : List Char) (hne : ds ≠ []) (hd : ds.all Char.isDigit = true) :
    pyInt ds = some ((digitsToNat ds : Int)) := by
  rw [pyInt, pyStrip_digits ds hne hd]
  cases ds with
  | nil => exact absurd rfl hne
  | cons c rest =>
    have hc : c.isDigit = true := by
      rw [List.all_eq_true] at hd; exact hd c (by simp)
    rw [pyIntCore, if_neg (digit_ne_dash c hc), if_neg (digit_ne_plus c hc), if_pos hd]

theorem splitOnce_append (sep : Char) (a b : List Char) (ha : ∀ x ∈ a, ¬(x = sep)) :
    splitOnce sep (a ++ sep :: b) = (a, some b) := by
  induction a with
  | nil => simp [splitOnce]
  | cons x xs ih =>
    rw [List.cons_append, splitOnce, if_neg (ha x (by simp)),
      ih (fun y hy => ha y (by simp [hy]))]

theorem pyLstrip_sentinel (y : List Char) :
    pyLstrip (SENTINEL_PREFIX ++ y) = SENTINEL_PREFIX ++ y := by
  have hcons : SENTINEL_PREFIX = '_' :: (("_CMD_EXIT:").data) := by decide
  rw [hcons, List.cons_append]
  exact pyLstrip_of_head '_' _ (by decide)

theorem parseExit_sentinel (ds : List Char) (hne : ds ≠ []) (hd : ds.all Char.isDigit = true) :
    parseExit (SENTINEL_PREFIX ++ ds ++ ['\n']) = some ((digitsToNat ds : Int)) := by
  have hstrip : pyStrip (SENTINEL_PREFIX ++ ds ++ ['\n']) = SENTINEL_PREFIX ++ ds := by
    rw [pyStrip, List.append_assoc, pyLstrip_sentinel (ds ++ ['\n']), ← List.append_assoc]
    rw [pyRstrip_append_space _ '\n' (by decide)]
    obtain ⟨x, hx⟩ : ∃ x, ds.getLast? = some x := by
      cases hg : ds.getLast? with
      | none => exact absurd (by simpa using hg) hne
      | some x => exact ⟨x, rfl⟩
    have hxd : x.isDigit = true := by
      rw [List.all_eq_true] at hd
      exact hd x (List.mem_of_mem_getLast? hx)
    refine pyRstrip_of_getLast _ x ?_ (digit_not_space x hxd)
    rw [List.getLast?_append_of_ne_nil _ hne]
    exact hx
  rw [parseExit, hstrip]
  have hstem : SENTINEL_PREFIX ++ ds = ("__CMD_EXIT").data ++ ':' :: ds := by
    rw [show SENTINEL_PREFIX = ("__CMD_EXIT").data ++ [':'] by decide, List.append_assoc]
    rfl
  rw [hstem, splitOnce_append ':' _ ds (by decide)]
  exact pyInt_digits ds hne hd

/-! ### read-loop lemmas -/

theorem readLoop_split (pre : List (List Char))
    (hpre : ∀ l ∈ pre, l ≠ [] ∧ SENTINEL_PREFIX.isPrefixOf l = false)
    (sl : List Char) (hsl : sl ≠ []) (hpf : SENTINEL_PREFIX.isPrefixOf sl = true)
    (rest : List (List Char)) :
    readLoop (pre ++ sl :: rest) = ⟨pre, LoopEnd.sentinelHit (parseExit sl), rest⟩ := by
  induction pre with
  | nil =>
    rw [List.nil_append, readLoop]
    rw [if_neg (by simp [hsl]), if_pos hpf]
  | cons l pre' ih =>
    have hl := hpre l (by simp)
    rw [List.cons_append, readLoop]
    rw [if_neg (by simp [hl.1]), if_neg (by simp [hl.2])]
    rw [ih (fun x hx => hpre x (by simp [hx]))]

theorem readLoop_eof (outs : List (List Char))
    (h : ∀ l ∈ outs, l ≠ [] ∧ SENTINEL_PREFIX.isPrefixOf l = false) :
    readLoop outs = ⟨outs, LoopEnd.eofHit, []⟩ := by
  induction outs with
  | nil => rfl
  | cons l ls ih =>
    have hl := h l (by simp)
    rw [readLoop]
    rw [if_neg (by simp [hl.1]), if_neg (by simp [hl.2])]
    rw [ih (fun x hx => h x (by simp [hx]))]

/-! ### step lemmas for run_commands -/

theorem execCmd_split (sh : ShellModel) (cmd : List Char) (pre rest : List (List Char))
    (n : Int) (sl : List Char)
    (hlive : sh.eofSeen = false)
    (hpre : ∀ l ∈ pre, l ≠ [] ∧ SENTINEL_PREFIX.isPrefixOf l = false)
    (hsl : sl ≠ []) (hpf : SENTINEL_PREFIX.isPrefixOf sl = true)
    (hparse : parseExit sl = some n)
    (hout : sh.outLines = pre ++ sl :: rest) :
    execCmd sh cmd =
      (⟨sh.written ++ [cmd ++ ['\n'], PROBE_LINE], rest, false⟩,
       some ⟨if n ≠ 0 then
              (("$ ").data ++ cmd ++ '\n' :: pre.flatten) ++
                '\n' :: (("[Error] Command failed with code ").data ++ pyIntRepr n) ++ ['\n']
            else ("$ ").data ++ cmd ++ '\n' :: pre.flatten,
        Outcome.completed n false⟩) := by
  simp only [execCmd, hlive, Bool.false_eq_true, if_false, hout,
    readLoop_split pre hpre sl hsl hpf rest, hparse]

theorem execCmd_eof (sh : ShellModel) (cmd : List Char)
    (hlive : sh.eofSeen = false)
    (hclean : ∀ l ∈ sh.outLines, l ≠ [] ∧ SENTINEL_PREFIX.isPrefixOf l = false) :
    execCmd sh cmd =
      (⟨sh.written ++ [cmd ++ ['\n'], PROBE_LINE], [], true⟩,
       some ⟨("$ ").data ++ cmd ++ '\n' :: sh.outLines.flatten, Outcome.completed 0 true⟩) := by
  simp only [execCmd, hlive, Bool.false_eq_true, if_false, readLoop_eof _ hclean]

theorem execCmd_dead (sh : ShellModel) (cmd : List Char) (hdead : sh.eofSeen = true) :
    execCmd sh cmd = (sh, none) := by
  simp only [execCmd, hdead, if_true]

theorem processCmd_noGate (ans : List Bool) (sh : ShellModel) (raw : List Char)
    (hplc : placeholderHit (normalize_command raw) = false) :
    processCmd false ans sh raw =
      ⟨(execCmd sh (normalize_command raw)).1, ans, (execCmd sh (normalize_command raw)).2⟩ := by
  simp [processCmd, hplc]

/-! ## Claim theorems -/

/-- C1: the claim says `is_risky` flags `rm -rf /` and does not flag
`rm -rf /home/user/tmp`. The code does exactly the opposite: the trailing
`\b` of the first signature requires a word character after the `/`, so the
bare root path never matches while every sub-path does. This theorem
evaluates the code at both inputs, witnessing the inversion. -/
theorem c1_rm_root_risk_inverted :
    is_risky (("rm -rf /").data) = false ∧
      is_risky (("rm -rf /home/user/tmp").data) = true := by
  decide

/-- C3: the claim (and the docstring of `normalize_command`) says every
output for an input containing `<<` ends with a newline. The final
splitlines/rstrip/join step drops the very newline the heredoc step appended:
on `cat <<EOF` the function returns its input unchanged, with no trailing
newline. -/
theorem c3_heredoc_newline_dropped :
    hasSubstr ('<' :: '<' :: []) (("cat <<EOF").data) = true ∧
      normalize_command (("cat <<EOF").data) = ("cat <<EOF").data ∧
      ¬((normalize_command (("cat <<EOF").data)).getLast? = some '\n') := by
  decide

/-- C10 counterexample: the claim says the output of `normalize_command`
never ends with a newline, but `normalize_command "a\n\n"` is `"a\n"`. -/
theorem c10_trailing_newline_counterexample :
    (normalize_command ('a' :: '\n' :: '\n' :: [])).getLast? = some '\n' := by
  decide

/-- C10 (amended): the output of `normalize_command` ends with a newline
exactly when the escape-processed, heredoc-adjusted command splits into at
least two lines whose final line is whitespace-only (so the rstripped line
list ends in an empty line); in every other case — in particular whenever
the newline appended by the heredoc step is the only trailing newline — the
final join drops it. -/
theorem c10_trailing_newline_iff (s : List Char) :
    (normalize_command s).getLast? = some '\n' ↔
      2 ≤ ((pySplitlines (heredocAdjust (applyEscapes (unwrap_outer_quotes s)))).map
            pyRstrip).length ∧
      ((pySplitlines (heredocAdjust (applyEscapes (unwrap_outer_quotes s)))).map
            pyRstrip).getLast? = some [] := by
  rw [show normalize_command s =
    joinNL ((pySplitlines (heredocAdjust (applyEscapes (unwrap_outer_quotes s)))).map
      pyRstrip) from rfl]
  apply joinNL_getLast_nl
  intro x hx
  obtain ⟨y, -, rfl⟩ := List.mem_map.mp hx
  exact pyRstrip_not_nl y

/-- C7: `_unwrap_outer_quotes` removes exactly one matching outer pair and
never touches inner quotes: a string of the form `q·mid·q` (for `q` a double
or single quote) becomes exactly `mid` (one unwrap, no recursion, the middle
untouched), any string failing the wrap test is returned unchanged, and the
spec's two `normalize` examples hold. -/
theorem c7_unwrap_exact :
    (∀ (q : Char) (mid : List Char), q = '"' ∨ q = singleQuote →
      unwrap_outer_quotes (q :: (mid ++ [q])) = mid) ∧
    (∀ s : List Char, wrappedB s = false → unwrap_outer_quotes s = s) ∧
    normalize_command (("\"echo hi\"").data) = ("echo hi").data ∧
    normalize_command (("echo \"hi\"").data) = ("echo \"hi\"").data := by
  refine ⟨?_, ?_, by decide, by decide⟩
  · intro q mid hq
    have hlast : (q :: (mid ++ [q])).getLast? = some q := by
      rw [show q :: (mid ++ [q]) = (q :: mid) ++ [q] from rfl]
      exact List.getLast?_concat _
    have hwrap : wrappedB (q :: (mid ++ [q])) = true := by
      rw [wrappedB]
      apply decide_eq_true
      refine ⟨by simp only [List.length_cons, List.length_append]; omega, ?_⟩
      rcases hq with rfl | rfl
      · exact Or.inl ⟨rfl, hlast⟩
      · exact Or.inr ⟨rfl, hlast⟩
    rw [unwrap_outer_quotes, if_pos hwrap]
    simp only [List.drop_one, List.tail_cons]
    exact List.dropLast_concat
  · intro s hs
    rw [unwrap_outer_quotes, if_neg (by simp [hs])]

/-- C7 witness: the general statements instantiated at the spec's examples:
`"echo hi"` (wrapped, double quotes) loses exactly its outer pair and `ls`
(not wrapped) is unchanged. -/
theorem c7_unwrap_exact_witness :
    unwrap_outer_quotes ('"' :: (("echo hi").data ++ ['"'])) = ("echo hi").data ∧
      (wrappedB (("ls").data) = false ∧
        unwrap_outer_quotes (("ls").data) = ("ls").data) :=
  ⟨c7_unwrap_exact.1 '"' (("echo hi").data) (Or.inl rfl),
   by decide, c7_unwrap_exact.2.1 (("ls").data) (by decide)⟩

/-- C6: a command whose normalized text matches the placeholder pattern and
contains no heredoc marker is recorded as Skipped-Placeholder with the shell
state untouched (nothing written to the session), for every value of the
safe-mode flag and of the confirmation answers — the placeholder check comes
before the risk/confirmation check, so this holds even for risky commands. -/
theorem c6_placeholder_precedence (sm : Bool) (ans : List Bool) (sh : ShellModel)
    (raw : List Char)
    (h1 : placeholderHit (normalize_command raw) = true)
    (h2 : hasSubstr ('<' :: '<' :: []) (normalize_command raw) = false) :
    processCmd sm ans sh raw =
      ⟨sh, ans,
       some ⟨("$ ").data ++ normalize_command raw ++ '\n' :: ("[Skipped placeholder]").data,
         Outcome.skippedPlaceholder⟩⟩ := by
  simp [processCmd, h1, h2]

/-- C6 witness: `iptables -F <chain-name>` is flagged risky by the risk
table, yet with safe mode on it is still recorded as Skipped-Placeholder and
nothing reaches the session. -/
theorem c6_placeholder_precedence_witness :
    placeholderHit (normalize_command (("iptables -F <chain-name>").data)) = true ∧
    hasSubstr ('<' :: '<' :: []) (normalize_command (("iptables -F <chain-name>").data)) = false ∧
    is_risky (normalize_command (("iptables -F <chain-name>").data)) = true ∧
    processCmd true [] ⟨[], [], false⟩ (("iptables -F <chain-name>").data) =
      ⟨⟨[], [], false⟩, [],
       some ⟨("$ ").data ++ normalize_command (("iptables -F <chain-name>").data) ++
          '\n' :: ("[Skipped placeholder]").data,
         Outcome.skippedPlaceholder⟩⟩ :=
  ⟨by decide, by decide, by decide,
   c6_placeholder_precedence true [] ⟨[], [], false⟩ _ (by decide) (by decide)⟩

/-- C9 counterexample: the claim says teardown escalates to forced
termination if the process does not exit; the `finally` block of
`run_commands` only closes stdin, calls `terminate()` and then waits
unconditionally — no forced-kill step exists on any route, here shown on a
run whose body raises (malformed sentinel status). -/
theorem c9_teardown_counterexample :
    (run_commands false [] ⟨[], [("__CMD_EXIT:x").data ++ ['\n']], false⟩
        [("true").data]).transcript = none ∧
    (run_commands false [] ⟨[], [("__CMD_EXIT:x").data ++ ['\n']], false⟩
        [("true").data]).teardown =
      [TearStep.closeStdin, TearStep.terminate, TearStep.waitProc] ∧
    ¬(TearStep.kill ∈
      (run_commands false [] ⟨[], [("__CMD_EXIT:x").data ++ ['\n']], false⟩
        [("true").data]).teardown) := by
  decide

/-- C9 (amended): on every exit route out of `run_commands` — normal
completion or an exception raised in the loop body — the `finally` teardown
runs and performs exactly: close the session's stdin, request termination
(`terminate()`), then wait; there is no escalation to a forced kill. -/
theorem c9_teardown_every_route (sm : Bool) (ans : List Bool) (sh : ShellModel)
    (cmds : List (List Char)) :
    (run_commands sm ans sh cmds).teardown =
      [TearStep.closeStdin, TearStep.terminate, TearStep.waitProc] := by
  rfl

/-- C2: for a command submitted to a live session whose pending stream holds
some non-sentinel, non-empty lines followed by a sentinel line
`__CMD_EXIT:<digits>\n`, the harness writes exactly the command line
(newline-terminated) and the probe, the read loop collects (and mirrors)
exactly the lines before the sentinel, the sentinel line itself is consumed
(matched by its fixed prefix), is excluded from the output buffer, and its
digits are recovered as the integer exit status recorded in the result. -/
theorem c2_sentinel_protocol (sh : ShellModel) (cmd : List Char)
    (pre rest : List (List Char)) (ds : List Char)
    (hlive : sh.eofSeen = false)
    (hpre : ∀ l ∈ pre, l ≠ [] ∧ SENTINEL_PREFIX.isPrefixOf l = false)
    (hne : ds ≠ []) (hd : ds.all Char.isDigit = true)
    (hout : sh.outLines = pre ++ (SENTINEL_PREFIX ++ ds ++ ['\n']) :: rest) :
    readLoop sh.outLines =
      ⟨pre, LoopEnd.sentinelHit (some ((digitsToNat ds : Int))), rest⟩ ∧
    execCmd sh cmd =
      (⟨sh.written ++ [cmd ++ ['\n'], PROBE_LINE], rest, false⟩,
       some ⟨if ((digitsToNat ds : Int)) ≠ 0 then
              (("$ ").data ++ cmd ++ '\n' :: pre.flatten) ++
                '\n' :: (("[Error] Command failed with code ").data ++
                  pyIntRepr ((digitsToNat ds : Int))) ++ ['\n']
            else ("$ ").data ++ cmd ++ '\n' :: pre.flatten,
        Outcome.completed ((digitsToNat ds : Int)) false⟩) := by
  have hsl : (SENTINEL_PREFIX ++ ds ++ ['\n']) ≠ [] := by simp
  have hpf : SENTINEL_PREFIX.isPrefixOf (SENTINEL_PREFIX ++ ds ++ ['\n']) = true := by
    rw [List.append_assoc]
    exact isPrefixOf_self_append _ _
  have hparse := parseExit_sentinel ds hne hd
  constructor
  · rw [hout, readLoop_split pre hpre _ hsl hpf rest, hparse]
  · exact execCmd_split sh cmd pre rest _ _ hlive hpre hsl hpf hparse hout

/-- C2 witness: one command against the stream `hello\n`, `__CMD_EXIT:7\n`:
the collected output is exactly `hello\n`, the sentinel is excluded, and the
recorded exit status is 7. -/
theorem c2_sentinel_protocol_witness :
    ((ShellModel.mk []
        [("hello").data ++ ['\n'], SENTINEL_PREFIX ++ ("7").data ++ ['\n']] false).eofSeen =
      false) ∧
    (∀ l ∈ [("hello").data ++ ['\n']], l ≠ [] ∧ SENTINEL_PREFIX.isPrefixOf l = false) ∧
    (("7").data ≠ [] ∧ (("7").data).all Char.isDigit = true) ∧
    (readLoop (ShellModel.mk []
        [("hello").data ++ ['\n'], SENTINEL_PREFIX ++ ("7").data ++ ['\n']] false).outLines =
      ⟨[("hello").data ++ ['\n']],
       LoopEnd.sentinelHit (some ((digitsToNat (("7").data) : Int))), []⟩ ∧
     execCmd (ShellModel.mk []
        [("hello").data ++ ['\n'], SENTINEL_PREFIX ++ ("7").data ++ ['\n']] false)
        (("echo hi").data) =
      (⟨(ShellModel.mk []
          [("hello").data ++ ['\n'], SENTINEL_PREFIX ++ ("7").data ++ ['\n']] false).written ++
            [("echo hi").data ++ ['\n'], PROBE_LINE], [], false⟩,
       some ⟨if ((digitsToNat (("7").data) : Int)) ≠ 0 then
              (("$ ").data ++ ("echo hi").data ++ '\n' :: [("hello").data ++ ['\n']].flatten) ++
                '\n' :: (("[Error] Command failed with code ").data ++
                  pyIntRepr ((digitsToNat (("7").data) : Int))) ++ ['\n']
            else ("$ ").data ++ ("echo hi").data ++ '\n' :: [("hello").data ++ ['\n']].flatten,
        Outcome.completed ((digitsToNat (("7").data) : Int)) false⟩)) :=
  ⟨by decide, by decide, ⟨by decide, by decide⟩,
   c2_sentinel_protocol
     (ShellModel.mk [] [("hello").data ++ ['\n'], SENTINEL_PREFIX ++ ("7").data ++ ['\n']] false)
     (("echo hi").data) [("hello").data ++ ['\n']] [] (("7").data)
     (by decide) (by decide) (by decide) (by decide) (by decide)⟩

/-- C5: when a command's sentinel reports a non-zero status, the record
carries that exit code and an explicit `[Error] Command failed with code n`
annotation, and the loop continues: the remaining commands are processed
exactly as a fresh run from the advanced shell state — a non-zero exit never
aborts the session or the rest of the sequence. -/
theorem c5_nonzero_exit_continues (raw : List Char) (moreCmds : List (List Char))
    (ans : List Bool) (sh : ShellModel) (pre rest : List (List Char)) (ds : List Char)
    (hplc : placeholderHit (normalize_command raw) = false)
    (hlive : sh.eofSeen = false)
    (hpre : ∀ l ∈ pre, l ≠ [] ∧ SENTINEL_PREFIX.isPrefixOf l = false)
    (hne : ds ≠ []) (hd : ds.all Char.isDigit = true)
    (hnz : ((digitsToNat ds : Int)) ≠ 0)
    (hout : sh.outLines = pre ++ (SENTINEL_PREFIX ++ ds ++ ['\n']) :: rest) :
    runBody false ans sh (raw :: moreCmds) =
      ⟨(runBody false ans
          ⟨sh.written ++ [normalize_command raw ++ ['\n'], PROBE_LINE], rest, false⟩
          moreCmds).shell,
       ⟨(("$ ").data ++ normalize_command raw ++ '\n' :: pre.flatten) ++
          '\n' :: (("[Error] Command failed with code ").data ++
            pyIntRepr ((digitsToNat ds : Int))) ++ ['\n'],
        Outcome.completed ((digitsToNat ds : Int)) false⟩ ::
        (runBody false ans
          ⟨sh.written ++ [normalize_command raw ++ ['\n'], PROBE_LINE], rest, false⟩
          moreCmds).records,
       (runBody false ans
          ⟨sh.written ++ [normalize_command raw ++ ['\n'], PROBE_LINE], rest, false⟩
          moreCmds).raised⟩ := by
  have hsl : (SENTINEL_PREFIX ++ ds ++ ['\n']) ≠ [] := by simp
  have hpf : SENTINEL_PREFIX.isPrefixOf (SENTINEL_PREFIX ++ ds ++ ['\n']) = true := by
    rw [List.append_assoc]
    exact isPrefixOf_self_append _ _
  have hparse := parseExit_sentinel ds hne hd
  have hexec := execCmd_split sh (normalize_command raw) pre rest _ _ hlive hpre hsl hpf
    hparse hout
  rw [if_pos hnz] at hexec
  have hstep := processCmd_noGate ans sh raw hplc
  rw [hexec] at hstep
  simp only [runBody, hstep]

/-- C5 witness: `false` exits with status 3 (annotated in its entry) and
`echo ok` still runs afterwards, recording exit status 0 with output `ok`. -/
theorem c5_nonzero_exit_continues_witness :
    (placeholderHit (normalize_command (("false").data)) = false ∧
     (ShellModel.mk []
        [SENTINEL_PREFIX ++ ("3").data ++ ['\n'],
         ("ok").data ++ ['\n'], SENTINEL_PREFIX ++ ("0").data ++ ['\n']] false).eofSeen = false ∧
     (("3").data ≠ [] ∧ (("3").data).all Char.isDigit = true) ∧
     ((digitsToNat (("3").data) : Int)) ≠ 0) ∧
    runBody false [] (ShellModel.mk []
        [SENTINEL_PREFIX ++ ("3").data ++ ['\n'],
         ("ok").data ++ ['\n'], SENTINEL_PREFIX ++ ("0").data ++ ['\n']] false)
        [("false").data, ("echo ok").data] =
      ⟨(runBody false []
          ⟨(ShellModel.mk []
              [SENTINEL_PREFIX ++ ("3").data ++ ['\n'],
               ("ok").data ++ ['\n'], SENTINEL_PREFIX ++ ("0").data ++ ['\n']] false).written ++
            [normalize_command (("false").data) ++ ['\n'], PROBE_LINE],
            [("ok").data ++ ['\n'], SENTINEL_PREFIX ++ ("0").data ++ ['\n']], false⟩
          [("echo ok").data]).shell,
       ⟨(("$ ").data ++ normalize_command (("false").data) ++ '\n' :: ([] : List (List Char)).flatten) ++
          '\n' :: (("[Error] Command failed with code ").data ++
            pyIntRepr ((digitsToNat (("3").data) : Int))) ++ ['\n'],
        Outcome.completed ((digitsToNat (("3").data) : Int)) false⟩ ::
        (runBody false []
          ⟨(ShellModel.mk []
              [SENTINEL_PREFIX ++ ("3").data ++ ['\n'],
               ("ok").data ++ ['\n'], SENTINEL_PREFIX ++ ("0").data ++ ['\n']] false).written ++
            [normalize_command (("false").data) ++ ['\n'], PROBE_LINE],
            [("ok").data ++ ['\n'], SENTINEL_PREFIX ++ ("0").data ++ ['\n']], false⟩
          [("echo ok").data]).records,
       (runBody false []
          ⟨(ShellModel.mk []
              [SENTINEL_PREFIX ++ ("3").data ++ ['\n'],
               ("ok").data ++ ['\n'], SENTINEL_PREFIX ++ ("0").data ++ ['\n']] false).written ++
            [normalize_command (("false").data) ++ ['\n'], PROBE_LINE],
            [("ok").data ++ ['\n'], SENTINEL_PREFIX ++ ("0").data ++ ['\n']], false⟩
          [("echo ok").data]).raised⟩ :=
  ⟨⟨by decide, by decide, ⟨by decide, by decide⟩, by decide⟩,
   c5_nonzero_exit_continues (("false").data) [("echo ok").data] []
     (ShellModel.mk []
        [SENTINEL_PREFIX ++ ("3").data ++ ['\n'],
         ("ok").data ++ ['\n'], SENTINEL_PREFIX ++ ("0").data ++ ['\n']] false)
     [] [("ok").data ++ ['\n'], SENTINEL_PREFIX ++ ("0").data ++ ['\n']] (("3").data)
     (by decide) (by decide) (by decide) (by decide) (by decide) (by decide) (by decide)⟩

/-- C4 counterexample: with the stream ending (end-of-stream) before any
sentinel, the claim's required behavior does not happen. The first command
is recorded as completed with the default exit status 0; the next
submission's write to the exited shell's stdin raises `BrokenPipeError`,
which aborts the run: `echo b` is never written (the write log stops after
the first command's two lines), no failed-to-run record is produced for it,
and the records gathered so far are lost with the never-returned `outputs`
(transcript `none`) — the not-yet-submitted command is silently dropped
rather than reported. -/
theorem c4_dead_session_counterexample :
    (runBody false [] ⟨[], [('a' :: '\n' :: [])], false⟩
        [("echo a").data, ("echo b").data]).records =
      [⟨("$ echo a").data ++ '\n' :: 'a' :: '\n' :: [], Outcome.completed 0 true⟩] ∧
    (runBody false [] ⟨[], [('a' :: '\n' :: [])], false⟩
        [("echo a").data, ("echo b").data]).raised = true ∧
    (run_commands false [] ⟨[], [('a' :: '\n' :: [])], false⟩
        [("echo a").data, ("echo b").data]).transcript = none ∧
    (run_commands false [] ⟨[], [('a' :: '\n' :: [])], false⟩
        [("echo a").data, ("echo b").data]).shell.written =
      [("echo a").data ++ ['\n'], PROBE_LINE] := by
  decide

/-- C4 (amended): a read that returns end-of-stream before any sentinel only
breaks the read loop with the default exit status 0: the current command is
recorded as completed with the lines read so far, and the session's
end-of-stream is noted. The session is never resurrected, and the write for
the next submitted (non-placeholder) command raises `BrokenPipeError` on the
dead session's stdin, aborting the remaining sequence: the run raises, so
nothing further is written, the gathered transcript is lost (the returned
transcript is `none`), no command is reported as failed-to-run, and the
`finally` teardown still runs. -/
theorem c4_dead_session_abort (raw1 raw2 : List Char) (moreCmds : List (List Char))
    (ans : List Bool) (sh : ShellModel)
    (hplc1 : placeholderHit (normalize_command raw1) = false)
    (hplc2 : placeholderHit (normalize_command raw2) = false)
    (hlive : sh.eofSeen = false)
    (hclean : ∀ l ∈ sh.outLines, l ≠ [] ∧ SENTINEL_PREFIX.isPrefixOf l = false) :
    runBody false ans sh (raw1 :: raw2 :: moreCmds) =
      ⟨⟨sh.written ++ [normalize_command raw1 ++ ['\n'], PROBE_LINE], [], true⟩,
       [⟨("$ ").data ++ normalize_command raw1 ++ '\n' :: sh.outLines.flatten,
         Outcome.completed 0 true⟩],
       true⟩ ∧
    (run_commands false ans sh (raw1 :: raw2 :: moreCmds)).transcript = none ∧
    (run_commands false ans sh (raw1 :: raw2 :: moreCmds)).teardown =
      [TearStep.closeStdin, TearStep.terminate, TearStep.waitProc] := by
  have hexec1 := execCmd_eof sh (normalize_command raw1) hlive hclean
  have hstep1 := processCmd_noGate ans sh raw1 hplc1
  rw [hexec1] at hstep1
  have hexec2 := execCmd_dead
    ⟨sh.written ++ [normalize_command raw1 ++ ['\n'], PROBE_LINE], [], true⟩
    (normalize_command raw2) rfl
  have hstep2 := processCmd_noGate ans
    ⟨sh.written ++ [normalize_command raw1 ++ ['\n'], PROBE_LINE], [], true⟩ raw2 hplc2
  rw [hexec2] at hstep2
  have hbody : runBody false ans sh (raw1 :: raw2 :: moreCmds) =
      ⟨⟨sh.written ++ [normalize_command raw1 ++ ['\n'], PROBE_LINE], [], true⟩,
       [⟨("$ ").data ++ normalize_command raw1 ++ '\n' :: sh.outLines.flatten,
         Outcome.completed 0 true⟩],
       true⟩ := by
    simp only [runBody, hstep1, hstep2]
  refine ⟨hbody, ?_, rfl⟩
  simp [run_commands, hbody]

/-- C4 witness: the amended behavior at the counterexample's input — `echo a`
records completed-0 from the lines before end-of-stream, and the submission
of `echo b` aborts the run with nothing further written and teardown done. -/
theorem c4_dead_session_abort_witness :
    (placeholderHit (normalize_command (("echo a").data)) = false ∧
     placeholderHit (normalize_command (("echo b").data)) = false ∧
     (ShellModel.mk [] [('a' :: '\n' :: [])] false).eofSeen = false ∧
     (∀ l ∈ (ShellModel.mk [] [('a' :: '\n' :: [])] false).outLines,
        l ≠ [] ∧ SENTINEL_PREFIX.isPrefixOf l = false)) ∧
    (runBody false [] (ShellModel.mk [] [('a' :: '\n' :: [])] false)
        [("echo a").data, ("echo b").data] =
      ⟨⟨(ShellModel.mk [] [('a' :: '\n' :: [])] false).written ++
          [normalize_command (("echo a").data) ++ ['\n'], PROBE_LINE], [], true⟩,
       [⟨("$ ").data ++ normalize_command (("echo a").data) ++ '\n' ::
           (ShellModel.mk [] [('a' :: '\n' :: [])] false).outLines.flatten,
         Outcome.completed 0 true⟩],
       true⟩ ∧
     (run_commands false [] (ShellModel.mk [] [('a' :: '\n' :: [])] false)
        [("echo a").data, ("echo b").data]).transcript = none ∧
     (run_commands false [] (ShellModel.mk [] [('a' :: '\n' :: [])] false)
        [("echo a").data, ("echo b").data]).teardown =
      [TearStep.closeStdin, TearStep.terminate, TearStep.waitProc]) :=
  ⟨⟨by decide, by decide, by decide, by decide⟩,
   c4_dead_session_abort (("echo a").data) (("echo b").data) [] []
     (ShellModel.mk [] [('a' :: '\n' :: [])] false)
     (by decide) (by decide) (by decide) (by decide)⟩

/-- C8 counterexample: idempotence after one application fails for inputs
with no escape sequences and no outer quotes. Two distinct failures: the
first application can manufacture an outer-quoted string (`"a" ` becomes
`"a"` which the second pass unwraps to `a`), and it can leave a trailing
newline (`a`, newline, space becomes `a\n` which the second pass shortens
to `a`). -/
theorem c8_idem_counterexample :
    (hasSubstr ('\\' :: 'n' :: []) ('"' :: 'a' :: '"' :: ' ' :: []) = false ∧
     hasSubstr ('\\' :: 't' :: []) ('"' :: 'a' :: '"' :: ' ' :: []) = false ∧
     hasSubstr ('\\' :: 'r' :: []) ('"' :: 'a' :: '"' :: ' ' :: []) = false ∧
     wrappedB ('"' :: 'a' :: '"' :: ' ' :: []) = false ∧
     normalize_command (normalize_command ('"' :: 'a' :: '"' :: ' ' :: [])) ≠
       normalize_command ('"' :: 'a' :: '"' :: ' ' :: [])) ∧
    (hasSubstr ('\\' :: 'n' :: []) ('a' :: '\n' :: ' ' :: []) = false ∧
     hasSubstr ('\\' :: 't' :: []) ('a' :: '\n' :: ' ' :: []) = false ∧
     hasSubstr ('\\' :: 'r' :: []) ('a' :: '\n' :: ' ' :: []) = false ∧
     wrappedB ('a' :: '\n' :: ' ' :: []) = false ∧
     normalize_command (normalize_command ('a' :: '\n' :: ' ' :: [])) ≠
       normalize_command ('a' :: '\n' :: ' ' :: [])) := by
  decide

/-- C8 (amended): `normalize_command` is idempotent after the first
application for inputs without escape sequences or outer quotes, provided
additionally that the first application's result is itself not wrapped in
outer quotes and does not end in a newline (the two situations of the
counterexample, which a second pass rewrites again). -/
theorem c8_normalize_idempotent (s : List Char)
    (hn : hasSubstr ('\\' :: 'n' :: []) s = false)
    (ht : hasSubstr ('\\' :: 't' :: []) s = false)
    (hr : hasSubstr ('\\' :: 'r' :: []) s = false)
    (hw : wrappedB s = false)
    (hw2 : wrappedB (normalize_command s) = false)
    (hnl2 : ¬((normalize_command s).getLast? = some '\n')) :
    normalize_command (normalize_command s) = normalize_command s := by
  have hu : unwrap_outer_quotes s = s := unwrap_of_not_wrapped s hw
  have hesc : applyEscapes s = s := applyEscapes_of_clean s hn ht hr
  have hnorm : normalize_command s =
      joinNL ((pySplitlines (heredocAdjust s)).map pyRstrip) := by
    rw [normalize_command, hu, hesc, trimLines]
  set ls := (pySplitlines (heredocAdjust s)).map pyRstrip with hls
  have hrs : ∀ x ∈ ls, pyRstrip x = x := by
    intro x hx
    obtain ⟨y, -, rfl⟩ := List.mem_map.mp hx
    exact pyRstrip_idem y
  have hbf : ∀ x ∈ ls, ∀ c ∈ x, pyIsLineBreak c = false := by
    intro x hx c hc
    obtain ⟨y, hy, rfl⟩ := List.mem_map.mp hx
    exact splitlinesGo_lines_breakFree [] (heredocAdjust s) (by simp) y hy c
      (mem_pyRstrip y c hc)
  have hescfree : ∀ (b : Char), ¬(b = '\n') → hasSubstr ('\\' :: b :: []) s = false →
      hasSubstr ('\\' :: b :: []) (normalize_command s) = false := by
    intro b hb hsb
    have hpatnl : ∀ x ∈ ('\\' :: b :: []), x ≠ '\n' := by
      intro x hx
      simp only [List.mem_cons, List.not_mem_nil, or_false] at hx
      rcases hx with rfl | rfl
      · decide
      · exact hb
    have hfreeu : hasSubstr ('\\' :: b :: []) (heredocAdjust s) = false :=
      hasSubstr_heredocAdjust _ s hpatnl hsb
    rw [show normalize_command s = trimLines (heredocAdjust s) by
      rw [hnorm]; rfl]
    exact hasSubstr_trimLines _ (by simp) hpatnl _ hfreeu
  have hn2 := hescfree 'n' (by decide) hn
  have ht2 := hescfree 't' (by decide) ht
  have hr2 := hescfree 'r' (by decide) hr
  rw [show normalize_command (normalize_command s) =
      trimLines (heredocAdjust (applyEscapes (unwrap_outer_quotes (normalize_command s))))
      from rfl]
  rw [unwrap_of_not_wrapped _ hw2, applyEscapes_of_clean _ hn2 ht2 hr2]
  by_cases hlast : ls.getLast? = some []
  · have hiff := joinNL_getLast_nl ls (fun x hx => by
      obtain ⟨y, -, rfl⟩ := List.mem_map.mp hx
      exact pyRstrip_not_nl y)
    have hlen : ¬(2 ≤ ls.length) := by
      intro h2
      exact hnl2 (by rw [hnorm]; exact hiff.mpr ⟨h2, hlast⟩)
    have hls1 : ls = [[]] := by
      cases hcase : ls with
      | nil => rw [hcase] at hlast; simp at hlast
      | cons x xs =>
        cases hxs : xs with
        | nil =>
          rw [hcase, hxs] at hlast
          simp only [List.getLast?_singleton, Option.some.injEq] at hlast
          rw [hlast]
        | cons y ys =>
          exfalso
          apply hlen
          rw [hcase, hxs]
          simp only [List.length_cons]
          omega
    have hts : normalize_command s = [] := by
      rw [hnorm, hls1]
      rfl
    rw [hts]
    decide
  · have htri := trimLines_joinNL ls hrs hbf hlast
    rw [hnorm]
    rw [heredocAdjust]
    split
    · rename_i hcond
      have hlsne : ls ≠ [] := by
        intro e
        rw [e] at hcond
        simp [joinNL, hasSubstr] at hcond
      exact htri.2 hlsne
    · exact htri.1

/-- C8 witness: the amended idempotence applied to `ls -la`. -/
theorem c8_normalize_idempotent_witness :
    (hasSubstr ('\\' :: 'n' :: []) (("ls -la").data) = false ∧
     hasSubstr ('\\' :: 't' :: []) (("ls -la").data) = false ∧
     hasSubstr ('\\' :: 'r' :: []) (("ls -la").data) = false ∧
     wrappedB (("ls -la").data) = false ∧
     wrappedB (normalize_command (("ls -la").data)) = false ∧
     ¬((normalize_command (("ls -la").data)).getLast? = some '\n')) ∧
    normalize_command (normalize_command (("ls -la").data)) =
      normalize_command (("ls -la").data) :=
  ⟨⟨by decide, by decide, by decide, by decide, by decide, by decide⟩,
   c8_normalize_idempotent (("ls -la").data) (by decide) (by decide) (by decide)
     (by decide) (by decide) (by decide)⟩
